import Mathlib

/-!
Shallow embedding of the `hang` HTTP scaffolding package and proofs about
its route registry, dispatcher, request-body extractor and shutdown
listener. Go strings and byte slices are modelled as `List Char`; the Go
map `Routes map[string]HandleFunc` is modelled as an association list whose
iteration order is quantified over wherever a claim depends on it.
-/

namespace Hang

/-- Go strings and byte slices are modelled as lists of characters. -/
abbrev Str := List Char

/-- Model of `http.ResponseWriter`: the first `WriteHeader` call fixes the
status code (later calls are ignored by Go's writer) and every `Write`
appends to the body. -/
structure Resp where
  status : Option Nat
  body : Str
  deriving Repr, DecidableEq

/-- `resp.WriteHeader(code)`: sets the status only if none was set yet. -/
def writeHeader (r : Resp) (code : Nat) : Resp :=
  match r.status with
  | none => { r with status := some code }
  | some _ => r

/-- `resp.Write(bytes)`: appends to the response body. -/
def writeBody (r : Resp) (s : Str) : Resp :=
  { r with body := r.body ++ s }

/-- Model of an `io.ReadCloser` request body: the bytes `ioutil.ReadAll`
will yield, an optional read-error message (`some m` means the read fails,
after yielding the bytes, with an error whose `Error()` text is `m`), and
whether `Close` has been called. -/
structure BodyStream where
  data : Str
  readErr : Option Str
  closed : Bool
  deriving Repr, DecidableEq

/-- Model of `ioutil.ReadAll`: returns the bytes, the error, and the
consumed stream (a further read yields nothing). -/
def readAll (b : BodyStream) : Str × Option Str × BodyStream :=
  (b.data, b.readErr, { b with data := [], readErr := none })

/-- Model of `*http.Request`: the URL path and the (possibly nil) body. -/
structure Request where
  urlPath : Str
  body : Option BodyStream
  deriving Repr, DecidableEq

/-- Deep embedding of the `HandleFunc` values the claims mention: the two
handlers seeded by `NewHandler`, and user-supplied handlers distinguished
by an id. -/
inductive HFunc where
  | routeNotSet
  | liveCheck
  | custom (id : Nat)
  deriving Repr, DecidableEq

/-- Embedding of `strings.Replace(s, "/", "", -1)` (src/hang.go:105 and
src/hang.go:154): every occurrence of the one-character pattern is replaced
by the empty string, i.e. every slash is removed. -/
def goReplaceSlashEmpty : Str → Str
  | [] => []
  | c :: cs => if c = '/' then goReplaceSlashEmpty cs else c :: goReplaceSlashEmpty cs

/-- src/hang.go:104-110 `RouteNotSet`, the default handler: writes status
400 and the body "Route not found: " followed by the slash-stripped path.
The `Log.Debug` call has no effect on the response. -/
def RouteNotSetRun (req : Request) (resp : Resp) : Resp × Option Str :=
  let path := goReplaceSlashEmpty req.urlPath
  (writeBody (writeHeader resp 400) ("Route not found: ".toList ++ path), none)

/-- src/hang.go:113-118 `LiveCheck`: writes status 200 and body "OK". -/
def LiveCheckRun (_req : Request) (resp : Resp) : Resp × Option Str :=
  (writeBody (writeHeader resp 200) "OK".toList, none)

/-- Interpretation of a `HandleFunc` value. A `custom` handler is abstract:
it writes nothing and returns no error; claims about custom handlers only
concern which handler the dispatcher selects. -/
def runHandler : HFunc → Request → Resp → Resp × Option Str
  | .routeNotSet, req, resp => RouteNotSetRun req resp
  | .liveCheck, req, resp => LiveCheckRun req resp
  | .custom _, _, resp => (resp, none)

/-- The Go map `Routes map[string]HandleFunc` as an association list. -/
abbrev Registry := List (Str × HFunc)

/-- Map lookup `h.Routes[route]`, and the first match found by the range
loop of `Handle` (src/hang.go:156-166), which breaks after one hit. -/
def findRoute (path : Str) : Registry → Option HFunc
  | [] => none
  | (r, h) :: rest => if path = r then some h else findRoute path rest

/-- The `_, exists := h.Routes[route]` test of src/hang.go:123,137. -/
def containsKey (route : Str) (l : Registry) : Bool :=
  (findRoute route l).isSome

/-- src/hang.go:121-128 `AddRoute`: fails when the route exists, otherwise
inserts. Returns the new registry and the error. -/
def AddRoute (l : Registry) (route : Str) (f : HFunc) : Registry × Option Str :=
  if containsKey route l then
    (l, some ("Route ".toList ++ route ++ " already exists.".toList))
  else
    (l ++ [(route, f)], none)

/-- Map assignment `h.Routes[route] = f` on an existing key: replaces the
bound handler. -/
def setRoute (route : Str) (f : HFunc) : Registry → Registry
  | [] => []
  | (r, h) :: rest =>
    if r = route then (r, f) :: setRoute route f rest
    else (r, h) :: setRoute route f rest

/-- src/hang.go:136-142 `ModifyRoute`: fails when the route is absent,
otherwise replaces the handler. The error text reproduces the source's
missing space before "does". -/
def ModifyRoute (l : Registry) (route : Str) (f : HFunc) : Registry × Option Str :=
  if containsKey route l then (setRoute route f l, none)
  else (l, some ("Route ".toList ++ route ++ "does not exists.".toList))

/-- src/hang.go:131-133 `DeleteRoute`: `delete(h.Routes, route)`, removing
the entry if present. -/
def DeleteRoute (l : Registry) (route : Str) : Registry :=
  match l with
  | [] => []
  | (r, h) :: rest =>
    if r = route then DeleteRoute rest route
    else (r, h) :: DeleteRoute rest route

/-- src/hang.go:145-170 `Handle`: strips all slashes from the path, scans
the registry for an exact match, invokes the first matching handler, and
otherwise invokes the map entry bound to "default". Returns the response
and the invoked handler, or `none` when no route matched and the key
"default" is absent: the Go code then calls the map's nil zero value, a
panic. -/
def Handle (l : Registry) (req : Request) (resp : Resp) : Option (Resp × HFunc) :=
  let path := goReplaceSlashEmpty req.urlPath
  match findRoute path l with
  | some h => some ((runHandler h req resp).fst, h)
  | none =>
    match findRoute "default".toList l with
    | some h => some ((runHandler h req resp).fst, h)
    | none => none

/-- The registry seeded by `NewHandler` (src/hang.go:91-93): first
"default" then "livecheck" are added to the empty map. -/
def newHandlerRoutes : Registry :=
  (AddRoute (AddRoute [] "default".toList .routeNotSet).fst "livecheck".toList .liveCheck).fst

example : newHandlerRoutes =
    [("default".toList, .routeNotSet), ("livecheck".toList, .liveCheck)] := by decide

example : Handle newHandlerRoutes ⟨"/livecheck/".toList, none⟩ ⟨none, []⟩ =
    some (⟨some 200, "OK".toList⟩, .liveCheck) := by decide

example : Handle newHandlerRoutes ⟨"/nope".toList, none⟩ ⟨none, []⟩ =
    some (⟨some 400, "Route not found: nope".toList⟩, .routeNotSet) := by decide

/-- Embedding of `strings.TrimLeft(s, "/")`: drops leading slashes. -/
def goTrimLeftSlash (s : Str) : Str := s.dropWhile (fun c => c == '/')

/-- Embedding of `strings.TrimRight(s, "/")`: drops trailing slashes. -/
def goTrimRightSlash (s : Str) : Str := (s.reverse.dropWhile (fun c => c == '/')).reverse

/-- src/unnamed/part_000:213-216 `GetRoute`: trims trailing then leading
slashes from the URL path. -/
def GetRoute (p : Str) : Str := goTrimLeftSlash (goTrimRightSlash p)

/-- Modelled from the spec: the stricter normalization it describes,
"strip ALL slashes and lower-case the result". -/
def specStripAllLower (p : Str) : Str :=
  (p.filter (fun c => c != '/')).map Char.toLower

/-- Modelled from the spec: the lenient normalization it describes,
"strip leading/trailing slashes". -/
def specTrimEdges (p : Str) : Str :=
  ((p.dropWhile (fun c => c == '/')).reverse.dropWhile (fun c => c == '/')).reverse

/-- Registry states reachable from the `NewHandler` seed by any sequence of
AddRoute, ModifyRoute, DeleteRoute and Handle calls (Handle never mutates
the registry). -/
inductive Reachable : Registry → Prop where
  | init : Reachable newHandlerRoutes
  | add (l r f) : Reachable l → Reachable (AddRoute l r f).fst
  | modify (l r f) : Reachable l → Reachable (ModifyRoute l r f).fst
  | del (l r) : Reachable l → Reachable (DeleteRoute l r)

/-- Registry states reachable when `DeleteRoute` is never called on the key
"default". -/
inductive SafeReachable : Registry → Prop where
  | init : SafeReachable newHandlerRoutes
  | add (l r f) : SafeReachable l → SafeReachable (AddRoute l r f).fst
  | modify (l r f) : SafeReachable l → SafeReachable (ModifyRoute l r f).fst
  | del (l r) : r ≠ "default".toList → SafeReachable l → SafeReachable (DeleteRoute l r)

/-- src/unnamed/part_000:286-327 `GetReqData`: extracts the raw request
body. Returns ((bytes, error message), response, request).
`errors.Wrap(e, msg).Error()` renders as `msg ++ ": " ++ e.Error()`, so the
wrapped texts below end in the underlying message. On the success path the
body is closed; on the error paths it is not. -/
def GetReqData (resp : Resp) (req : Request) : (Str × Option Str) × Resp × Request :=
  match req.body with
  | none =>
    let e := "Missing input data".toList
    (([], some e), writeBody (writeHeader resp 400) e, req)
  | some b =>
    let r := readAll b
    match r.2.1 with
    | some m =>
      if m = "EOF".toList then
        let e := ("EOF error reading JSON, maybe you are trying to read again " ++
          "an already processed response body: ").toList ++ m
        ((r.1, some e), writeBody (writeHeader resp 500) e, { req with body := some r.2.2 })
      else
        let e := "error reading request body: ".toList ++ m
        ((r.1, some e), writeBody (writeHeader resp 400) e, { req with body := some r.2.2 })
    | none =>
      ((r.1, none), resp, { req with body := some { r.2.2 with closed := true } })

/-- Leading digits of a string and the rest. -/
def natOfDigits (ds : Str) : Nat :=
  ds.foldl (fun a c => a * 10 + (c.toNat - 48)) 0

/-- Parses an optionally signed decimal integer token, returning the value
and the rest of the input. -/
def parseIntTok (s : Str) : Option (Int × Str) :=
  match s with
  | '-' :: rest =>
    let ds := rest.takeWhile Char.isDigit
    if ds = [] then none
    else some (-(natOfDigits ds : Int), rest.dropWhile Char.isDigit)
  | _ =>
    let ds := s.takeWhile Char.isDigit
    if ds = [] then none
    else some ((natOfDigits ds : Int), s.dropWhile Char.isDigit)

/-- JSON insignificant whitespace. -/
def skipWS (s : Str) : Str :=
  s.dropWhile (fun c => c == ' ' || c == '\t' || c == '\n' || c == '\r')

/-- Modelled from the Go standard library call `json.Unmarshal(body, data)`
of src/unnamed/part_000:338 at the target type the claim uses, a struct
with a single int field named x: accepts an object with that one field and
an integer value, with optional whitespace; a truncated input is the
"unexpected end of JSON input" error and any other mismatch is a decode
error. -/
def jsonUnmarshalIntX (s : Str) : Except Str Int :=
  let s1 := skipWS s
  match s1 with
  | '\x7b' :: s2 =>
    match skipWS s2 with
    | '"' :: 'x' :: '"' :: s3 =>
      match skipWS s3 with
      | ':' :: s4 =>
        match parseIntTok (skipWS s4) with
        | some (v, s5) =>
          match skipWS s5 with
          | '\x7d' :: s6 =>
            match skipWS s6 with
            | [] => .ok v
            | _ => .error "invalid character after top-level value".toList
          | [] => .error "unexpected end of JSON input".toList
          | _ => .error "invalid character".toList
        | none =>
          match skipWS s4 with
          | [] => .error "unexpected end of JSON input".toList
          | _ => .error "invalid character".toList
      | [] => .error "unexpected end of JSON input".toList
      | _ => .error "invalid character".toList
    | [] => .error "unexpected end of JSON input".toList
    | _ => .error "invalid character".toList
  | [] => .error "unexpected end of JSON input".toList
  | _ => .error "invalid character".toList

/-- src/unnamed/part_000:329-349 `GetReqJSONData`: calls `GetReqData`, then
decodes the bytes. Returns (error, decoded value, response, request). The
source's nil-response guard is always taken here since the model always
supplies a response writer. -/
def GetReqJSONData (resp : Resp) (req : Request) :
    Option Str × Option Int × Resp × Request :=
  let out := GetReqData resp req
  match out.1.2 with
  | some e => (some e, none, out.2.1, out.2.2)
  | none =>
    match jsonUnmarshalIntX out.1.1 with
    | .ok v => (none, some v, out.2.1, out.2.2)
    | .error m =>
      let e := "can't decode input JSON: ".toList ++ m
      (some e, none, writeBody (writeHeader out.2.1 400) e, out.2.2)

/-- src/unnamed/part_000:351-356 `Tee`: reads the whole body (discarding
the read error), returns the bytes, and replaces the body with a fresh
readable stream over the same bytes
(`ioutil.NopCloser(bytes.NewBuffer(b))`). -/
def Tee (b : BodyStream) : Str × BodyStream :=
  let r := readAll b
  (r.1, { data := r.1, readErr := none, closed := false })

/-- The one log line of the shutdown listener. -/
def stopLine (name : Str) : Str := name ++ ": stopped by the user".toList

/-- The shutdown listener is armed at construction and fires at most once. -/
inductive ListenerState where
  | armed
  | exited (code : Nat)
  deriving Repr, DecidableEq

/-- Events delivered to the process: an interrupt/termination signal, or an
inbound request being dispatched. -/
inductive Event where
  | signal
  | request (req : Request)
  deriving Repr, DecidableEq

/-- Process state: listener phase, shutdown-listener log lines, and how
many requests have been dispatched. -/
structure SysState where
  listener : ListenerState
  logs : List Str
  dispatched : Nat
  deriving Repr, DecidableEq

/-- src/hang.go:173-179 `WaitForShutdown` and src/unnamed/part_001:14-29
`LogStartAndStop`, combined with the meaning of `os.Exit(0)`: on the first
signal the armed listener logs exactly the stop line and the process exits
with code 0; an exited process reacts to nothing, in particular it
dispatches no further request. Dispatching a request never touches the
listener: `Handle` contains no exit call. -/
def sysStep (name : Str) (s : SysState) : Event → SysState
  | .signal =>
    match s.listener with
    | .armed => { s with listener := .exited 0, logs := s.logs ++ [stopLine name] }
    | .exited _ => s
  | .request _ =>
    match s.listener with
    | .armed => { s with dispatched := s.dispatched + 1 }
    | .exited _ => s

/-- Runs the process over a serialized event trace. -/
def sysRun (name : Str) (s : SysState) (events : List Event) : SysState :=
  events.foldl (sysStep name) s

/-- Initial process state: listener armed, nothing logged or dispatched. -/
def sysInit : SysState := ⟨.armed, [], 0⟩

example : jsonUnmarshalIntX "\x7b\"x\":1\x7d".toList = .ok 1 := by rfl
example : jsonUnmarshalIntX "\x7b\"x\":".toList =
    .error "unexpected end of JSON input".toList := by rfl

/-! ## Lemmas about the registry lookup -/

theorem findRoute_append (p : Str) (l₁ l₂ : Registry) :
    findRoute p (l₁ ++ l₂) =
      match findRoute p l₁ with
      | some h => some h
      | none => findRoute p l₂ := by
  induction l₁ with
  | nil => simp [findRoute]
  | cons kv rest ih =>
    obtain ⟨r, h⟩ := kv
    by_cases hc : p = r <;> simp [findRoute, hc, ih]

theorem containsKey_false_iff (r : Str) (l : Registry) :
    containsKey r l = false ↔ findRoute r l = none := by
  cases hf : findRoute r l <;> simp [containsKey, hf]

theorem containsKey_true_iff (r : Str) (l : Registry) :
    containsKey r l = true ↔ ∃ h, findRoute r l = some h := by
  cases hf : findRoute r l <;> simp [containsKey, hf]

/-! ## C1 -/

/-- C1: for every request whose normalized path matches no registered
route, `Handle` invokes the handler bound to "default" — `RouteNotSet` —
which writes HTTP status 400 and the body "Route not found: " followed by
the normalized (slash-stripped) request path. -/
theorem c1_handle_unmatched_default (l : Registry) (req : Request)
    (hmiss : findRoute (goReplaceSlashEmpty req.urlPath) l = none)
    (hdef : findRoute "default".toList l = some .routeNotSet) :
    Handle l req ⟨none, []⟩ =
      some (⟨some 400, "Route not found: ".toList ++ goReplaceSlashEmpty req.urlPath⟩,
        .routeNotSet) := by
  have hdef2 : findRoute ('d' :: 'e' :: 'f' :: 'a' :: 'u' :: 'l' :: 't' :: []) l =
      some .routeNotSet := hdef
  simp [Handle, hmiss, hdef2, runHandler, RouteNotSetRun, writeHeader, writeBody]

/-- C1 witness: dispatching "/missing" against the `NewHandler` registry. -/
theorem c1_handle_unmatched_default_witness :
    Handle newHandlerRoutes ⟨"/missing".toList, none⟩ ⟨none, []⟩ =
      some (⟨some 400,
        "Route not found: ".toList ++ goReplaceSlashEmpty "/missing".toList⟩,
        .routeNotSet) :=
  c1_handle_unmatched_default newHandlerRoutes ⟨"/missing".toList, none⟩
    (by decide) (by decide)

/-! ## C4 -/

/-- C4: if route `r` is present, `AddRoute l r f2` returns the duplicate
error and leaves the registry unchanged (so the original binding stands);
if `r` is absent, it returns no error and binds `f2` to `r`, so a
subsequent dispatch whose normalized path is `r` invokes `f2`. -/
theorem c4_addRoute_spec (l : Registry) (r : Str) (f2 : HFunc) :
    (containsKey r l = true →
      AddRoute l r f2 = (l, some ("Route ".toList ++ r ++ " already exists.".toList))) ∧
    (containsKey r l = false →
      (AddRoute l r f2).snd = none ∧
      findRoute r (AddRoute l r f2).fst = some f2 ∧
      ∀ req resp, goReplaceSlashEmpty req.urlPath = r →
        (Handle (AddRoute l r f2).fst req resp).map Prod.snd = some f2) := by
  constructor
  · intro h
    simp [AddRoute, h]
  · intro h
    have hnone : findRoute r l = none := (containsKey_false_iff r l).mp h
    have hfind : findRoute r (AddRoute l r f2).fst = some f2 := by
      simp [AddRoute, h, findRoute_append, hnone, findRoute]
    refine ⟨by simp [AddRoute, h], hfind, ?_⟩
    intro req resp hpath
    simp [Handle, hpath, hfind]

/-- C4 witness: adding the existing "livecheck" route fails and leaves the
registry unchanged; adding a fresh "data" route succeeds and dispatch to
"/data/" invokes the new handler. -/
theorem c4_addRoute_spec_witness :
    AddRoute newHandlerRoutes "livecheck".toList (.custom 7) =
      (newHandlerRoutes,
        some ("Route ".toList ++ "livecheck".toList ++ " already exists.".toList)) ∧
    (AddRoute newHandlerRoutes "data".toList (.custom 9)).snd = none ∧
    findRoute "data".toList (AddRoute newHandlerRoutes "data".toList (.custom 9)).fst =
      some (.custom 9) ∧
    (Handle (AddRoute newHandlerRoutes "data".toList (.custom 9)).fst
        ⟨"/data/".toList, none⟩ ⟨none, []⟩).map Prod.snd = some (.custom 9) := by
  have h1 := (c4_addRoute_spec newHandlerRoutes "livecheck".toList (.custom 7)).1 (by decide)
  have h2 := (c4_addRoute_spec newHandlerRoutes "data".toList (.custom 9)).2 (by decide)
  exact ⟨h1, h2.1, h2.2.1, h2.2.2 ⟨"/data/".toList, none⟩ ⟨none, []⟩ (by decide)⟩

/-! ## C2 -/

/-- C2 counterexample: `DeleteRoute` on "default" is a legal call in any
sequence, it is reachable from the `NewHandler` state, it unbinds the key
"default", and a subsequent dispatch to an unmatched path reaches the nil
map entry — the panic case `Handle` models as `none`. -/
theorem c2_default_deletable_counterexample :
    Reachable (DeleteRoute newHandlerRoutes "default".toList) ∧
    containsKey "default".toList (DeleteRoute newHandlerRoutes "default".toList) = false ∧
    Handle (DeleteRoute newHandlerRoutes "default".toList)
      ⟨"/absent".toList, none⟩ ⟨none, []⟩ = none :=
  ⟨Reachable.del _ _ Reachable.init, by decide, by decide⟩

theorem containsKey_addRoute (d r : Str) (f : HFunc) (l : Registry)
    (h : containsKey d l = true) : containsKey d (AddRoute l r f).fst = true := by
  unfold AddRoute
  by_cases hc : containsKey r l = true
  · rw [if_pos hc]
    exact h
  · rw [if_neg hc]
    obtain ⟨g, hg⟩ := (containsKey_true_iff d l).mp h
    show (findRoute d (l ++ [(r, f)])).isSome = true
    rw [findRoute_append, hg]
    rfl

theorem findRoute_setRoute_isSome (d r : Str) (f : HFunc) (l : Registry) :
    (findRoute d (setRoute r f l)).isSome = (findRoute d l).isSome := by
  induction l with
  | nil => rfl
  | cons kv rest ih =>
    obtain ⟨k, h⟩ := kv
    by_cases hk : k = r
    · subst hk
      by_cases hd : d = k <;> simp [setRoute, findRoute, hd, ih]
    · by_cases hd : d = k <;> simp [setRoute, findRoute, hk, hd, ih]

theorem findRoute_deleteRoute (d r : Str) (l : Registry) (hne : d ≠ r) :
    findRoute d (DeleteRoute l r) = findRoute d l := by
  induction l with
  | nil => rfl
  | cons kv rest ih =>
    obtain ⟨k, h⟩ := kv
    by_cases hk : k = r
    · subst hk
      simp [DeleteRoute, findRoute, hne, ih]
    · by_cases hd : d = k <;> simp [DeleteRoute, findRoute, hk, hd, ih]

/-- C2 amended: in every registry state reachable from the `NewHandler`
seed by AddRoute, ModifyRoute, Handle and DeleteRoute calls that never
delete the key "default", that key stays bound to a handler, and
consequently `Handle` never reaches the nil-map-entry panic. -/
theorem c2_default_bound_safeReachable (l : Registry) (hr : SafeReachable l) :
    containsKey "default".toList l = true ∧
    ∀ req resp, Handle l req resp ≠ none := by
  have key : containsKey "default".toList l = true := by
    induction hr with
    | init => decide
    | add l' r f _ ih => exact containsKey_addRoute _ _ _ _ ih
    | modify l' r f _ ih =>
      unfold ModifyRoute
      by_cases hc : containsKey r l' = true
      · rw [if_pos hc]
        show (findRoute "default".toList (setRoute r f l')).isSome = true
        rw [findRoute_setRoute_isSome]
        exact ih
      · rw [if_neg hc]
        exact ih
    | del l' r hne _ ih =>
      show (findRoute "default".toList (DeleteRoute l' r)).isSome = true
      rw [findRoute_deleteRoute _ _ _ (fun h => hne h.symm)]
      exact ih
  refine ⟨key, ?_⟩
  intro req resp
  obtain ⟨g, hg⟩ := (containsKey_true_iff _ _).mp key
  have hg2 : findRoute ('d' :: 'e' :: 'f' :: 'a' :: 'u' :: 'l' :: 't' :: []) l = some g := hg
  cases hf : findRoute (goReplaceSlashEmpty req.urlPath) l with
  | some h => simp [Handle, hf]
  | none => simp [Handle, hf, hg2]

/-- C2 amended witness: after deleting only "livecheck", the key "default"
is still bound and dispatching "/livecheck" does not panic. -/
theorem c2_default_bound_safeReachable_witness :
    containsKey "default".toList (DeleteRoute newHandlerRoutes "livecheck".toList) = true ∧
    Handle (DeleteRoute newHandlerRoutes "livecheck".toList)
      ⟨"/livecheck".toList, none⟩ ⟨none, []⟩ ≠ none :=
  have h := c2_default_bound_safeReachable
    (DeleteRoute newHandlerRoutes "livecheck".toList)
    (SafeReachable.del _ _ (by decide) SafeReachable.init)
  ⟨h.1, h.2 ⟨"/livecheck".toList, none⟩ ⟨none, []⟩⟩

/-! ## C3 -/

/-- C3 counterexample: on the request path "/A/b" the hang.go dispatcher
normalizes to "Ab", which matches neither policy the claim offers:
stripping only leading and trailing slashes gives "A/b", and stripping all
slashes with lower-casing gives "ab". -/
theorem c3_normalization_counterexample :
    goReplaceSlashEmpty "/A/b".toList = "Ab".toList ∧
    specTrimEdges "/A/b".toList = "A/b".toList ∧
    specStripAllLower "/A/b".toList = "ab".toList ∧
    ¬(goReplaceSlashEmpty "/A/b".toList = specTrimEdges "/A/b".toList ∨
      goReplaceSlashEmpty "/A/b".toList = specStripAllLower "/A/b".toList) := by
  refine ⟨by decide, by decide, by decide, ?_⟩
  decide

/-- C3 amended: each dispatcher revision applies exactly one consistent
normalization, but the stricter one does not lower-case: `Handle` in
src/hang.go removes exactly the slashes and keeps every other character
unchanged (it equals a slash filter), while the `GetRoute` revision strips
only leading and trailing slashes (its result is a contiguous piece of the
path and the removed edges consist of slashes only). -/
theorem c3_normalization_amended (p : Str) :
    goReplaceSlashEmpty p = p.filter (fun c => c != '/') ∧
    ∃ s t, p = s ++ GetRoute p ++ t ∧ (∀ c ∈ s, c = '/') ∧ (∀ c ∈ t, c = '/') := by
  constructor
  · induction p with
    | nil => rfl
    | cons c cs ih => by_cases hc : c = '/' <;> simp [goReplaceSlashEmpty, hc, ih]
  · refine ⟨(goTrimRightSlash p).takeWhile (fun c => c == '/'),
      ((p.reverse).takeWhile (fun c => c == '/')).reverse, ?_, ?_, ?_⟩
    · have h1 : goTrimRightSlash p ++ ((p.reverse).takeWhile (fun c => c == '/')).reverse
          = p := by
        calc goTrimRightSlash p ++ ((p.reverse).takeWhile (fun c => c == '/')).reverse
            = (((p.reverse).takeWhile (fun c => c == '/')) ++
                ((p.reverse).dropWhile (fun c => c == '/'))).reverse := by
              rw [List.reverse_append]; rfl
          _ = (p.reverse).reverse := by rw [List.takeWhile_append_dropWhile]
          _ = p := List.reverse_reverse p
      have h2 : List.takeWhile (fun c => c == '/') (goTrimRightSlash p) ++
          List.dropWhile (fun c => c == '/') (goTrimRightSlash p) = goTrimRightSlash p :=
        List.takeWhile_append_dropWhile (fun c => c == '/') (goTrimRightSlash p)
      have h2g : List.takeWhile (fun c => c == '/') (goTrimRightSlash p) ++ GetRoute p =
          goTrimRightSlash p := h2
      rw [h2g, h1]
    · intro c hc
      have := List.mem_takeWhile_imp hc
      simpa using this
    · intro c hc
      rw [List.mem_reverse] at hc
      have := List.mem_takeWhile_imp hc
      simpa using this

/-! ## C5 -/

/-- C5: `GetReqData` on a request with no body returns the missing-body
error, writing HTTP 400 and the error text into the response; on a failing
read it returns the wrapped read error, writing HTTP 500 when the
underlying error text is "EOF" (the already-consumed case) and HTTP 400 for
any other read failure; on success it returns the raw body bytes with no
error, writes nothing, and closes the body. -/
theorem c5_getReqData_spec (resp : Resp) (req : Request) (hs : resp.status = none) :
    (req.body = none →
      (GetReqData resp req).1 = ([], some "Missing input data".toList) ∧
      (GetReqData resp req).2.1.status = some 400 ∧
      (GetReqData resp req).2.1.body = resp.body ++ "Missing input data".toList) ∧
    (∀ b, req.body = some b → b.readErr = some "EOF".toList →
      ((GetReqData resp req).1.2).isSome = true ∧
      (GetReqData resp req).2.1.status = some 500) ∧
    (∀ b m, req.body = some b → b.readErr = some m → m ≠ "EOF".toList →
      ((GetReqData resp req).1.2).isSome = true ∧
      (GetReqData resp req).2.1.status = some 400) ∧
    (∀ b, req.body = some b → b.readErr = none →
      (GetReqData resp req).1 = (b.data, none) ∧
      (GetReqData resp req).2.1 = resp ∧
      ∃ b2, (GetReqData resp req).2.2.body = some b2 ∧ b2.closed = true) := by
  refine ⟨?_, ?_, ?_, ?_⟩
  · intro hb
    simp [GetReqData, hb, writeHeader, writeBody, hs]
  · intro b hb he
    simp [GetReqData, hb, readAll, he, writeHeader, writeBody, hs]
  · intro b m hb he hm
    have hm2 : m ≠ ('E' :: 'O' :: 'F' :: []) := hm
    simp [GetReqData, hb, readAll, he, hm2, writeHeader, writeBody, hs]
  · intro b hb he
    simp [GetReqData, hb, readAll, he]

/-- C5 witness: the four branches at concrete requests. -/
theorem c5_getReqData_spec_witness :
    (GetReqData ⟨none, []⟩ ⟨[], none⟩).1 = ([], some "Missing input data".toList) ∧
    (GetReqData ⟨none, []⟩ ⟨[], none⟩).2.1.status = some 400 ∧
    (GetReqData ⟨none, []⟩
      ⟨[], some ⟨[], some "EOF".toList, false⟩⟩).2.1.status = some 500 ∧
    (GetReqData ⟨none, []⟩
      ⟨[], some ⟨[], some "boom".toList, false⟩⟩).2.1.status = some 400 ∧
    (GetReqData ⟨none, []⟩ ⟨[], some ⟨"hi".toList, none, false⟩⟩).1 =
      ("hi".toList, none) := by
  have h1 := (c5_getReqData_spec ⟨none, []⟩ ⟨[], none⟩ rfl).1 rfl
  have h2 := (c5_getReqData_spec ⟨none, []⟩
    ⟨[], some ⟨[], some "EOF".toList, false⟩⟩ rfl).2.1 _ rfl rfl
  have h3 := (c5_getReqData_spec ⟨none, []⟩
    ⟨[], some ⟨[], some "boom".toList, false⟩⟩ rfl).2.2.1
    ⟨[], some "boom".toList, false⟩ "boom".toList rfl rfl (by decide)
  have h4 := (c5_getReqData_spec ⟨none, []⟩
    ⟨[], some ⟨"hi".toList, none, false⟩⟩ rfl).2.2.2 _ rfl rfl
  exact ⟨h1.1, h1.2.1, h2.2, h3.2, h4.1⟩

/-! ## C10 -/

/-- C10: `GetReqData` closes the request body only on the successful-read
path: when it reports a missing body there is no body at all, and when it
returns a read error the body comes back unclosed (given it was unclosed
before); only the success path marks the body closed. -/
theorem c10_getReqData_close_only_on_success (resp : Resp) (req : Request) :
    (req.body = none → (GetReqData resp req).2.2.body = none) ∧
    (∀ b, req.body = some b → b.closed = false →
      ((GetReqData resp req).1.2 = none →
        ∃ b2, (GetReqData resp req).2.2.body = some b2 ∧ b2.closed = true) ∧
      (∀ e, (GetReqData resp req).1.2 = some e →
        ∃ b2, (GetReqData resp req).2.2.body = some b2 ∧ b2.closed = false)) := by
  refine ⟨?_, ?_⟩
  · intro hb
    simp [GetReqData, hb]
  · intro b hb hcl
    cases he : b.readErr with
    | none =>
      constructor
      · intro
        refine ⟨⟨[], none, true⟩, ?_, rfl⟩
        simp [GetReqData, hb, readAll, he]
      · intro e habs
        simp [GetReqData, hb, readAll, he] at habs
    | some m =>
      by_cases hm : m = ('E' :: 'O' :: 'F' :: [])
      · constructor
        · intro habs
          simp [GetReqData, hb, readAll, he, hm] at habs
        · intro e _
          refine ⟨⟨[], none, b.closed⟩, ?_, hcl⟩
          simp [GetReqData, hb, readAll, he, hm]
      · constructor
        · intro habs
          simp [GetReqData, hb, readAll, he, hm] at habs
        · intro e _
          refine ⟨⟨[], none, b.closed⟩, ?_, hcl⟩
          simp [GetReqData, hb, readAll, he, hm]

/-- C10 witness: a failing read leaves the body unclosed, a clean read
closes it, and a missing body stays missing. -/
theorem c10_getReqData_close_only_on_success_witness :
    (GetReqData ⟨none, []⟩ ⟨"/u".toList, none⟩).2.2.body = none ∧
    (∃ b2, (GetReqData ⟨none, []⟩
      ⟨"/u".toList, some ⟨"ab".toList, none, false⟩⟩).2.2.body = some b2 ∧
      b2.closed = true) ∧
    (∃ b2, (GetReqData ⟨none, []⟩
      ⟨"/u".toList, some ⟨"ab".toList, some "bad".toList, false⟩⟩).2.2.body = some b2 ∧
      b2.closed = false) := by
  have h1 := (c10_getReqData_close_only_on_success ⟨none, []⟩ ⟨"/u".toList, none⟩).1 rfl
  have h2 := ((c10_getReqData_close_only_on_success ⟨none, []⟩
    ⟨"/u".toList, some ⟨"ab".toList, none, false⟩⟩).2 _ rfl rfl).1 (by decide)
  have h3 := ((c10_getReqData_close_only_on_success ⟨none, []⟩
    ⟨"/u".toList, some ⟨"ab".toList, some "bad".toList, false⟩⟩).2
    ⟨"ab".toList, some "bad".toList, false⟩ rfl rfl).2
    ("error reading request body: ".toList ++ "bad".toList) (by decide)
  exact ⟨h1, h2, h3⟩

/-! ## C6 -/

/-- C6: `GetReqJSONData` reads the body via `GetReqData` and JSON-decodes
the bytes into the target: on the body consisting of an object binding
field x to 1 it yields the decoded value 1 and no error; on the malformed
truncated body it returns a decode error and writes HTTP 400 into the
response. -/
theorem c6_getReqJSONData_examples :
    (GetReqJSONData ⟨none, []⟩
      ⟨[], some ⟨"\x7b\"x\":1\x7d".toList, none, false⟩⟩).1 = none ∧
    (GetReqJSONData ⟨none, []⟩
      ⟨[], some ⟨"\x7b\"x\":1\x7d".toList, none, false⟩⟩).2.1 = some 1 ∧
    ((GetReqJSONData ⟨none, []⟩
      ⟨[], some ⟨"\x7b\"x\":".toList, none, false⟩⟩).1).isSome = true ∧
    (GetReqJSONData ⟨none, []⟩
      ⟨[], some ⟨"\x7b\"x\":".toList, none, false⟩⟩).2.1 = none ∧
    (GetReqJSONData ⟨none, []⟩
      ⟨[], some ⟨"\x7b\"x\":".toList, none, false⟩⟩).2.2.1.status = some 400 := by
  refine ⟨rfl, rfl, rfl, rfl, rfl⟩

/-! ## C7 -/

/-- C7: `Tee` buffers the entire body and replaces it by a fresh readable
stream over the same bytes: the returned bytes and a read after `Tee`
both equal exactly what a read without `Tee` would have yielded, and the
replacement stream sits at the start of the full content. -/
theorem c7_tee_roundtrip (b : BodyStream) :
    (Tee b).fst = (readAll b).1 ∧
    (readAll (Tee b).snd).1 = (readAll b).1 ∧
    (Tee b).snd.data = b.data := by
  simp [Tee, readAll]

/-! ## C8 -/

theorem sysRun_append (name : Str) (s : SysState) (l₁ l₂ : List Event) :
    sysRun name s (l₁ ++ l₂) = sysRun name (sysRun name s l₁) l₂ :=
  List.foldl_append _ _ _ _

theorem sysRun_of_exited (name : Str) (s : SysState) (c : Nat)
    (h : s.listener = .exited c) (events : List Event) :
    sysRun name s events = s := by
  induction events with
  | nil => rfl
  | cons e es ih =>
    have hstep : sysStep name s e = s := by
      cases e <;> simp [sysStep, h]
    show sysRun name (sysStep name s e) es = s
    rw [hstep, ih]

theorem sysStep_signal_exited (name : Str) (s : SysState) :
    ∃ c, (sysStep name s .signal).listener = .exited c := by
  cases hl : s.listener with
  | armed => exact ⟨0, by simp [sysStep, hl]⟩
  | exited c => exact ⟨c, by simp [sysStep, hl]⟩

theorem sysRun_armed_of_signal (name : Str) (L : List Str) (events : List Event)
    (h : Event.signal ∈ events) :
    ∀ d, ∃ d2, sysRun name ⟨.armed, L, d⟩ events =
      ⟨.exited 0, L ++ [stopLine name], d2⟩ := by
  induction events with
  | nil => cases h
  | cons e es ih =>
    intro d
    cases e with
    | signal =>
      refine ⟨d, ?_⟩
      show sysRun name (sysStep name ⟨.armed, L, d⟩ .signal) es = _
      have hstep : sysStep name ⟨.armed, L, d⟩ .signal =
          ⟨.exited 0, L ++ [stopLine name], d⟩ := rfl
      rw [hstep, sysRun_of_exited name _ 0 rfl]
    | request r =>
      have h2 : Event.signal ∈ es := by
        cases List.mem_cons.mp h with
        | inl hx => cases hx
        | inr hx => exact hx
      obtain ⟨d2, hd2⟩ := ih h2 (d + 1)
      refine ⟨d2, ?_⟩
      show sysRun name (sysStep name ⟨.armed, L, d⟩ (.request r)) es = _
      have hstep : sysStep name ⟨.armed, L, d⟩ (.request r) =
          ⟨.armed, L, d + 1⟩ := rfl
      rw [hstep, hd2]

theorem sysRun_armed_no_signal (name : Str) (L : List Str) (events : List Event)
    (h : Event.signal ∉ events) :
    ∀ d, (sysRun name ⟨.armed, L, d⟩ events).listener = .armed ∧
      (sysRun name ⟨.armed, L, d⟩ events).logs = L := by
  induction events with
  | nil => exact fun d => ⟨rfl, rfl⟩
  | cons e es ih =>
    intro d
    cases e with
    | signal => exact absurd (List.mem_cons_self _ _) h
    | request r =>
      have h2 : Event.signal ∉ es := fun hm => h (List.mem_cons_of_mem _ hm)
      have hstep : sysStep name ⟨.armed, L, d⟩ (.request r) =
          ⟨.armed, L, d + 1⟩ := rfl
      show (sysRun name (sysStep name ⟨.armed, L, d⟩ (.request r)) es).listener = _ ∧
        (sysRun name (sysStep name ⟨.armed, L, d⟩ (.request r)) es).logs = L
      rw [hstep]
      exact ih h2 (d + 1)

/-- C8: over any serialized event trace, if a signal is delivered while the
listener is armed, the process log consists of exactly the one line
`<process>: stopped by the user` and the listener reaches the
exit-code-0 terminal state; without a signal the listener stays armed and
nothing is logged; and everything after the first signal is ignored, so no
further request is dispatched and the listener cannot fire twice. Request
dispatch itself never exits the process. -/
theorem c8_shutdown_listener_spec (name : Str) (events : List Event) :
    (Event.signal ∈ events →
      (sysRun name sysInit events).logs = [stopLine name] ∧
      (sysRun name sysInit events).listener = .exited 0) ∧
    (Event.signal ∉ events →
      (sysRun name sysInit events).logs = [] ∧
      (sysRun name sysInit events).listener = .armed) ∧
    (∀ pre post, sysRun name sysInit (pre ++ Event.signal :: post) =
      sysRun name sysInit (pre ++ [Event.signal])) := by
  refine ⟨?_, ?_, ?_⟩
  · intro h
    obtain ⟨d2, hd2⟩ := sysRun_armed_of_signal name [] events h 0
    rw [show sysInit = (⟨.armed, [], 0⟩ : SysState) from rfl, hd2]
    exact ⟨rfl, rfl⟩
  · intro h
    have := sysRun_armed_no_signal name [] events h 0
    exact ⟨this.2, this.1⟩
  · intro pre post
    have hsplit : pre ++ Event.signal :: post = (pre ++ [Event.signal]) ++ post := by
      simp
    rw [hsplit, sysRun_append]
    obtain ⟨c, hc⟩ := sysStep_signal_exited name (sysRun name sysInit pre)
    have hlast : sysRun name sysInit (pre ++ [Event.signal]) =
        sysStep name (sysRun name sysInit pre) .signal := by
      rw [sysRun_append]
      rfl
    rw [hlast, sysRun_of_exited name _ c hc]

/-- C8 witness: a request, then a signal, then a late request: one stop
line, exit code 0, and the late request changes nothing. -/
theorem c8_shutdown_listener_spec_witness :
    (sysRun "svc".toList sysInit
      [Event.request ⟨"/a".toList, none⟩, Event.signal]).logs =
        [stopLine "svc".toList] ∧
    (sysRun "svc".toList sysInit
      [Event.request ⟨"/a".toList, none⟩, Event.signal]).listener = .exited 0 ∧
    sysRun "svc".toList sysInit
        ([Event.request ⟨"/a".toList, none⟩] ++
          Event.signal :: [Event.request ⟨"/b".toList, none⟩]) =
      sysRun "svc".toList sysInit
        ([Event.request ⟨"/a".toList, none⟩] ++ [Event.signal]) := by
  have h := c8_shutdown_listener_spec "svc".toList
    [Event.request ⟨"/a".toList, none⟩, Event.signal]
  exact ⟨(h.1 (by decide)).1, (h.1 (by decide)).2,
    h.2.2 [Event.request ⟨"/a".toList, none⟩] [Event.request ⟨"/b".toList, none⟩]⟩

/-! ## C9 -/

/-- The keys of a registry are pairwise distinct, the invariant `AddRoute`
maintains for the underlying Go map. -/
abbrev NodupKeys (l : Registry) : Prop := (l.map Prod.fst).Nodup

theorem findRoute_cons_self (p : Str) (g : HFunc) (rest : Registry) :
    findRoute p ((p, g) :: rest) = some g := by
  simp [findRoute]

theorem findRoute_cons_ne (p k : Str) (g : HFunc) (rest : Registry)
    (hp : p ≠ k) : findRoute p ((k, g) :: rest) = findRoute p rest := by
  simp [findRoute, hp]

theorem findRoute_eq_some_iff (p : Str) (h : HFunc) (l : Registry)
    (hn : NodupKeys l) : findRoute p l = some h ↔ (p, h) ∈ l := by
  induction l with
  | nil => simp [findRoute]
  | cons kv rest ih =>
    obtain ⟨k, g⟩ := kv
    have hn2 : NodupKeys rest := (List.nodup_cons.mp hn).2
    have hk : k ∉ rest.map Prod.fst := (List.nodup_cons.mp hn).1
    by_cases hp : p = k
    · subst hp
      rw [findRoute_cons_self]
      constructor
      · intro hsome
        have hgh : g = h := by simpa using hsome
        subst hgh
        exact List.mem_cons_self _ _
      · intro hmem
        cases List.mem_cons.mp hmem with
        | inl hx =>
          have hgh : h = g := congrArg Prod.snd hx
          subst hgh
          rfl
        | inr hx => exact absurd (List.mem_map_of_mem Prod.fst hx) hk
    · rw [findRoute_cons_ne p k g rest hp, ih hn2, List.mem_cons]
      constructor
      · exact Or.inr
      · intro hmem
        cases hmem with
        | inl hx => exact absurd (congrArg Prod.fst hx) hp
        | inr hx => exact hx

theorem findRoute_eq_none_iff (p : Str) (l : Registry) :
    findRoute p l = none ↔ ∀ g, (p, g) ∉ l := by
  induction l with
  | nil => simp [findRoute]
  | cons kv rest ih =>
    obtain ⟨k, g⟩ := kv
    by_cases hp : p = k
    · subst hp
      rw [findRoute_cons_self]
      constructor
      · intro hx
        exact absurd hx (by simp)
      · intro hall
        exact absurd (List.mem_cons_self _ _) (hall g)
    · rw [findRoute_cons_ne p k g rest hp, ih]
      constructor
      · intro hall g2
        rw [List.mem_cons]
        rintro (hx | hx)
        · exact hp (congrArg Prod.fst hx)
        · exact hall g2 hx
      · intro hall g2 hx
        exact hall g2 (List.mem_cons_of_mem _ hx)

theorem Handle_eq (l : Registry) (req : Request) (resp : Resp) :
    Handle l req resp =
      match findRoute (goReplaceSlashEmpty req.urlPath) l with
      | some h => some ((runHandler h req resp).fst, h)
      | none =>
        match findRoute "default".toList l with
        | some h => some ((runHandler h req resp).fst, h)
        | none => none := rfl

theorem findRoute_perm (p : Str) (l₁ l₂ : Registry) (hp : l₁.Perm l₂)
    (hn : NodupKeys l₁) : findRoute p l₁ = findRoute p l₂ := by
  have hn2 : NodupKeys l₂ := (hp.map Prod.fst).nodup_iff.mp hn
  cases hf : findRoute p l₁ with
  | some h =>
    have hmem : (p, h) ∈ l₁ := (findRoute_eq_some_iff p h l₁ hn).mp hf
    exact ((findRoute_eq_some_iff p h l₂ hn2).mpr (hp.mem_iff.mp hmem)).symm
  | none =>
    have hall := (findRoute_eq_none_iff p l₁).mp hf
    exact ((findRoute_eq_none_iff p l₂).mpr
      (fun g hx => hall g (hp.mem_iff.mpr hx))).symm

/-- C9: dispatch is deterministic. With unique keys, the handler `Handle`
selects — it invokes at most that one — is independent of the map iteration
order: any permutation of the registry entries produces the same response
and the same invoked handler. Moreover which handler is invoked is a
function of the normalized request path alone: two requests with equal
normalized paths select the same handler. -/
theorem c9_handle_deterministic (l₁ l₂ : Registry) (hp : l₁.Perm l₂)
    (hn : NodupKeys l₁) :
    (∀ req resp, Handle l₁ req resp = Handle l₂ req resp) ∧
    (∀ req req2 resp,
      goReplaceSlashEmpty req.urlPath = goReplaceSlashEmpty req2.urlPath →
      (Handle l₁ req resp).map Prod.snd = (Handle l₁ req2 resp).map Prod.snd) := by
  constructor
  · intro req resp
    rw [Handle_eq, Handle_eq,
      findRoute_perm (goReplaceSlashEmpty req.urlPath) l₁ l₂ hp hn,
      findRoute_perm "default".toList l₁ l₂ hp hn]
  · intro req req2 resp hpath
    rw [Handle_eq, Handle_eq, hpath]
    cases findRoute (goReplaceSlashEmpty req2.urlPath) l₁ with
    | some h => simp
    | none =>
      cases findRoute "default".toList l₁ with
      | some h => simp
      | none => simp

/-- C9 witness: a two-entry registry and its swap select the same handler
for "/b", and "/b" and "b/" normalize alike and select the same handler. -/
theorem c9_handle_deterministic_witness :
    Handle [("a".toList, .custom 1), ("b".toList, .custom 2)]
        ⟨"/b".toList, none⟩ ⟨none, []⟩ =
      Handle [("b".toList, .custom 2), ("a".toList, .custom 1)]
        ⟨"/b".toList, none⟩ ⟨none, []⟩ ∧
    (Handle [("a".toList, .custom 1), ("b".toList, .custom 2)]
        ⟨"/b".toList, none⟩ ⟨none, []⟩).map Prod.snd =
      (Handle [("a".toList, .custom 1), ("b".toList, .custom 2)]
        ⟨"b/".toList, none⟩ ⟨none, []⟩).map Prod.snd := by
  have h := c9_handle_deterministic
    [("a".toList, .custom 1), ("b".toList, .custom 2)]
    [("b".toList, .custom 2), ("a".toList, .custom 1)]
    (.swap _ _ _) (by decide)
  exact ⟨h.1 ⟨"/b".toList, none⟩ ⟨none, []⟩,
    h.2 ⟨"/b".toList, none⟩ ⟨"b/".toList, none⟩ ⟨none, []⟩ (by decide)⟩

end Hang
